import Mathlib

/-!
Verification of the MRI volume viewer decode pipeline (`src/services/niftiLoader.ts`,
function `fetchNifti`) and of the GPU ray-marching compositor
(the `VolumeShader` fragment program in `VolumeMaterial`).

Modelling conventions:
* JavaScript / GLSL floating-point numbers are modelled as rationals (`ℚ`);
  all arithmetic appearing in the claims is exact at the inputs considered.
* The binary parsing of individual header fields (endianness, 16-bit and
  32-bit reads) is abstracted: the decoded header fields (`dataType`,
  `voxOffset`, the three dimensions, buffer length) are taken as inputs,
  since every claim is a function of those decoded values only.
* GLSL `pow(x, 0.4)` is transcendental; it is modelled by an abstract
  function parameter `powq`.  It feeds only the colour channel, never the
  alpha channel or the loop control, so every claim below holds for an
  arbitrary `powq`.
-/

/-- GLSL `clamp(x, lo, hi) = min(max(x, lo), hi)`. -/
def clampQ (x lo hi : ℚ) : ℚ := min (max x lo) hi

/-- Failure modes of the scan decode path: the explicit
`throw new Error("Unsupported NIfTI DataType")` (niftiLoader.ts line 53), the
`RangeError` raised by JavaScript typed-array construction, and the
`TypeError` raised at niftiLoader.ts line 81 when the contrast sample is
empty, `minVal` is `undefined`, and `minVal.toFixed(2)` is called. -/
inductive DecodeError where
  | unsupportedDataType : DecodeError
  | rangeError : DecodeError
  | typeError : DecodeError
deriving DecidableEq

/-- Sample length of the contrast estimator:
`Math.min(rawValues.length, 10000)` (niftiLoader.ts line 57). -/
def sampleLen (totalLen : ℕ) : ℕ := min totalLen 10000

/-- The 5th-percentile index `Math.floor(sorted.length * 0.05)` (line 62). -/
def pctLoIdx (n : ℕ) : ℕ := n * 5 / 100

/-- The 99.5th-percentile index `Math.floor(sorted.length * 0.995)` (line 63). -/
def pctHiIdx (n : ℕ) : ℕ := n * 995 / 1000

/-- Element width in bytes for each NIfTI datatype code handled by the
`if/else` chain of niftiLoader.ts lines 40–54: UINT8 (2) → 1, INT16 (4) → 2,
FLOAT32 (16) → 4, UINT16 (512) → 2; every other code is unsupported. -/
def elemSizeOf (dataType : ℤ) : Option ℕ :=
  if dataType = 2 then some 1
  else if dataType = 4 then some 2
  else if dataType = 16 then some 4
  else if dataType = 512 then some 2
  else none

/-- Models `new TypedArray(buffer, voxOffset, numVoxels)` with elements of
`sz` bytes over a buffer of `bufLen` bytes (niftiLoader.ts lines 41, 44, 47, 50).
Per the ECMAScript specification this construction throws a `RangeError` when
the byte offset is negative, is not a multiple of the element size, or when
`voxOffset + numVoxels * sz` exceeds the buffer length. -/
def typedArrayView (bufLen : ℕ) (sz : ℕ) (voxOffset numVoxels : ℤ) :
    Except DecodeError Unit :=
  if voxOffset < 0 then .error .rangeError
  else if voxOffset % (sz : ℤ) ≠ 0 then .error .rangeError
  else if (bufLen : ℤ) < voxOffset + numVoxels * (sz : ℤ) then .error .rangeError
  else .ok ()

/-- The failure/success skeleton of the scan decode in `fetchNifti`
(niftiLoader.ts lines 36–81): compute `numVoxels` as the product of the
three header dimensions, allocate `new Float32Array(numVoxels)` (line 37,
throws a `RangeError` on a negative length), dispatch on the datatype code
and construct the typed view of the payload (lines 40–54), then run the
contrast-window, quantization and aspect stages.  Those stages
(lines 56–79) never throw — an out-of-bounds typed-array read yields
`undefined`, which propagates as `NaN` through the arithmetic — but the log
statement of line 81 calls `minVal.toFixed(2)`, which throws a `TypeError`
exactly when the percentile read `sorted[Math.floor(sorted.length * 0.05)]`
was out of bounds, i.e. when the sample length `min(numVoxels, 10000)` is
zero.  On any failure no `VolumeDataset` is produced. -/
def decodeScan (bufLen : ℕ) (dataType voxOffset d1 d2 d3 : ℤ) :
    Except DecodeError Unit :=
  let numVoxels := d1 * d2 * d3
  if numVoxels < 0 then .error .rangeError
  else
    match elemSizeOf dataType with
    | none => .error .unsupportedDataType
    | some sz =>
      match typedArrayView bufLen sz voxOffset numVoxels with
      | .error e => .error e
      | .ok _ =>
        if pctLoIdx (sampleLen numVoxels.toNat) < sampleLen numVoxels.toNat
        then .ok ()
        else .error .typeError

/-- Returns `true` exactly when the decode threw (no `VolumeDataset` produced). -/
def decodeFailed (x : Except DecodeError Unit) : Bool :=
  match x with
  | .error _ => true
  | .ok _ => false

/-- The failure condition exactly as claim C1 states it: the datatype code is
not one of the four supported codes, or the declared voxel count times the
element size exceeds the remaining buffer length past the voxel byte offset. -/
def claimC1FailureCond (bufLen : ℕ) (dataType voxOffset d1 d2 d3 : ℤ) : Prop :=
  elemSizeOf dataType = none ∨
    ∃ sz : ℕ, elemSizeOf dataType = some sz ∧
      (bufLen : ℤ) - voxOffset < (d1 * d2 * d3) * (sz : ℤ)

/-- The quantization of one raw voxel value (niftiLoader.ts lines 69–70):
`val = (raw - minVal) / range; Math.max(0, Math.min(255, Math.floor(val * 255)))`. -/
def quantize (minVal range v : ℚ) : ℤ :=
  max 0 (min 255 ⌊(v - minVal) / range * 255⌋)

/-- Sampling stride: `Math.floor(rawValues.length / sorted.length)`
(niftiLoader.ts line 58). -/
def strideOf (totalLen : ℕ) : ℕ := totalLen / sampleLen totalLen

/-- The strided sample copied out of the raw volume
(niftiLoader.ts line 59): `sorted[i] = rawValues[i * stride]`. -/
def contrastSample (raw : List ℚ) : List ℚ :=
  (List.range (sampleLen raw.length)).map fun i => raw.getD (i * strideOf raw.length) 0

/-- The ascending numeric sort of the sample (niftiLoader.ts line 60). -/
def sortedSample (raw : List ℚ) : List ℚ :=
  List.insertionSort (· ≤ ·) (contrastSample raw)

/-- The window minimum `minVal` (niftiLoader.ts line 62). -/
def windowMin (raw : List ℚ) : ℚ :=
  (sortedSample raw).getD (pctLoIdx (sortedSample raw).length) 0

/-- The window maximum `maxVal` (niftiLoader.ts line 63). -/
def windowMax (raw : List ℚ) : ℚ :=
  (sortedSample raw).getD (pctHiIdx (sortedSample raw).length) 0

/-- The window width `range = maxVal - minVal || 1.0` (niftiLoader.ts line 64):
JavaScript `||` replaces a zero difference by `1.0`. -/
def windowRange (raw : List ℚ) : ℚ :=
  if windowMax raw - windowMin raw = 0 then 1 else windowMax raw - windowMin raw

/-- A GLSL `vec3` / a three-component numeric triple, over `ℚ`. -/
structure Vec3 where
  x : ℚ
  y : ℚ
  z : ℚ
deriving DecidableEq

/-- The spatial aspect ratio (niftiLoader.ts lines 74–79): per-axis physical
extent `dims[i] * pixDims[i]` divided by the maximum extent across the axes. -/
def aspectRatio (d1 d2 d3 p1 p2 p3 : ℚ) : Vec3 :=
  let maxDim := max (d1 * p1) (max (d2 * p2) (d3 * p3))
  ⟨d1 * p1 / maxDim, d2 * p2 / maxDim, d3 * p3 / maxDim⟩

/-- The condition that exactly one component equals 1.0, as claim C8 states it. -/
def exactlyOneEqOne (v : Vec3) : Prop :=
  (v.x = 1 ∧ v.y ≠ 1 ∧ v.z ≠ 1) ∨
  (v.x ≠ 1 ∧ v.y = 1 ∧ v.z ≠ 1) ∨
  (v.x ≠ 1 ∧ v.y ≠ 1 ∧ v.z = 1)

/-- C2: for any contrast window with nonzero width, the quantizer value
`max(0, min(255, floor((v - min)/width * 255)))` equals
`floor(clamp((v - min)/width, 0, 1) * 255)` and always lies in `[0, 255]`. -/
theorem c2_quantizer_clamped (minVal width v : ℚ) (hw : width ≠ 0) :
    quantize minVal width v = ⌊clampQ ((v - minVal) / width) 0 1 * 255⌋ ∧
    0 ≤ quantize minVal width v ∧ quantize minVal width v ≤ 255 := by
  have hmain : ∀ x : ℚ,
      max 0 (min 255 ⌊x * 255⌋) = ⌊clampQ x 0 1 * 255⌋ := by
    intro x
    rcases le_or_lt x 0 with h0 | h0
    · have hf : ⌊x * 255⌋ ≤ 0 := by
        have h255 : x * 255 ≤ 0 := by nlinarith
        have := Int.floor_le_floor (α := ℚ) h255
        simpa using this
      have hcl : clampQ x 0 1 = 0 := by
        simp only [clampQ]
        rw [max_eq_right h0]
        simp
      rw [hcl]
      rw [min_eq_right (le_trans hf (by norm_num))]
      rw [max_eq_left hf]
      simp
    · rcases le_or_lt 1 x with h1 | h1
      · have hf : (255 : ℤ) ≤ ⌊x * 255⌋ := by
          have h255 : (255 : ℚ) ≤ x * 255 := by nlinarith
          have := Int.floor_le_floor (α := ℚ) h255
          simpa using this
        have hcl : clampQ x 0 1 = 1 := by
          simp only [clampQ]
          rw [max_eq_left (le_trans zero_le_one h1)]
          exact min_eq_right h1
        rw [hcl, min_eq_left hf, max_eq_right (by norm_num : (0:ℤ) ≤ 255)]
        norm_num
      · have hcl : clampQ x 0 1 = x := by
          simp only [clampQ]
          rw [max_eq_left h0.le]
          exact min_eq_left h1.le
        have hl : (0 : ℤ) ≤ ⌊x * 255⌋ := by
          apply Int.floor_nonneg.mpr
          nlinarith
        have hu : ⌊x * 255⌋ ≤ 255 := by
          have h255 : x * 255 ≤ 255 := by nlinarith
          have := Int.floor_le_floor (α := ℚ) h255
          simpa using this
        rw [hcl, min_eq_right hu, max_eq_right hl]
  refine ⟨hmain ((v - minVal) / width), le_max_left _ _, ?_⟩
  exact max_le (by norm_num) (min_le_left _ _)

/-- Witness for C2 at a concrete input. -/
theorem c2_quantizer_clamped_witness :
    quantize 0 1 (1/2) = ⌊clampQ ((1/2 - 0) / 1) 0 1 * 255⌋ ∧
    0 ≤ quantize 0 1 (1/2) ∧ quantize 0 1 (1/2) ≤ 255 :=
  c2_quantizer_clamped 0 1 (1/2) (by norm_num)

/-- The typed-array view construction fails exactly on a negative byte
offset, a misaligned byte offset, or a payload overrunning the buffer. -/
theorem typedArrayView_error_iff (bufLen sz : ℕ) (voxOffset numVoxels : ℤ) :
    (∃ e, typedArrayView bufLen sz voxOffset numVoxels = .error e) ↔
    (voxOffset < 0 ∨ voxOffset % (sz : ℤ) ≠ 0 ∨
      (bufLen : ℤ) < voxOffset + numVoxels * (sz : ℤ)) := by
  unfold typedArrayView
  split_ifs with h1 h2 h3
  · simp [h1]
  · simp [h1, h2]
  · simp [h1, h2, h3]
  · simp [h1, h2, h3]

/-- C1 (amended): the decode fails exactly when the datatype code is
unsupported, or the declared voxel count is zero or negative, or the voxel
byte offset is negative or misaligned for the element size, or the voxel
count times the element size exceeds the remaining buffer length past the
offset; on failure no dataset value is produced.  A negative count fails the
`Float32Array` allocation of line 37; a zero count passes every check up to
line 79 but fails at line 81, where `minVal.toFixed(2)` is called on the
`undefined` read from the empty contrast sample. -/
theorem c1_decode_failure_iff (bufLen : ℕ) (dataType voxOffset d1 d2 d3 : ℤ) :
    decodeFailed (decodeScan bufLen dataType voxOffset d1 d2 d3) = true ↔
    (elemSizeOf dataType = none ∨ d1 * d2 * d3 ≤ 0 ∨ voxOffset < 0 ∨
      ∃ sz : ℕ, elemSizeOf dataType = some sz ∧
        (voxOffset % (sz : ℤ) ≠ 0 ∨
          (bufLen : ℤ) - voxOffset < (d1 * d2 * d3) * (sz : ℤ))) := by
  have hlo : ∀ n : ℕ, 1 ≤ n → pctLoIdx n < n := by
    intro n hn
    have hmul : n * 5 < n * 100 := mul_lt_mul_of_pos_left (by norm_num) (by omega)
    exact (Nat.div_lt_iff_lt_mul (by norm_num)).mpr hmul
  unfold decodeScan
  rcases h : elemSizeOf dataType with _ | sz
  · simp only [h]
    split_ifs <;> simp [decodeFailed]
  · simp only [h, Option.some.injEq]
    split_ifs with hneg hpct
    · exact iff_of_true rfl (Or.inr (Or.inl hneg.le))
    · rcases hview : typedArrayView bufLen sz voxOffset (d1 * d2 * d3) with e | u
      · have hcond := (typedArrayView_error_iff bufLen sz voxOffset
          (d1 * d2 * d3)).mp ⟨e, hview⟩
        rcases hcond with hvo | hmod | hlen
        · exact iff_of_true rfl (Or.inr (Or.inr (Or.inl hvo)))
        · exact iff_of_true rfl
            (Or.inr (Or.inr (Or.inr ⟨sz, rfl, Or.inl hmod⟩)))
        · exact iff_of_true rfl
            (Or.inr (Or.inr (Or.inr ⟨sz, rfl, Or.inr (by linarith)⟩)))
      · constructor
        · intro hfalse
          exact absurd hfalse (by simp [decodeFailed])
        · intro hcond
          exfalso
          rcases hcond with hnone | hle | hvo | ⟨sz', hsz', hbad⟩
          · exact absurd hnone (by simp)
          · have h0 : (d1 * d2 * d3).toNat = 0 := by omega
            rw [h0] at hpct
            norm_num [sampleLen, pctLoIdx] at hpct
          · obtain ⟨e, he⟩ := (typedArrayView_error_iff bufLen sz voxOffset
              (d1 * d2 * d3)).mpr (Or.inl hvo)
            rw [hview] at he
            exact absurd he (by simp)
          · cases hsz'
            rcases hbad with hbad | hbad
            · obtain ⟨e, he⟩ := (typedArrayView_error_iff bufLen sz voxOffset
                (d1 * d2 * d3)).mpr (Or.inr (Or.inl hbad))
              rw [hview] at he
              exact absurd he (by simp)
            · obtain ⟨e, he⟩ := (typedArrayView_error_iff bufLen sz voxOffset
                (d1 * d2 * d3)).mpr (Or.inr (Or.inr (by linarith)))
              rw [hview] at he
              exact absurd he (by simp)
    · have hc0 : d1 * d2 * d3 ≤ 0 := by
        by_contra hpos
        push_neg at hpos
        have hL : 1 ≤ (d1 * d2 * d3).toNat := by omega
        exact hpct (hlo _ (le_min hL (by norm_num)))
      rcases hview : typedArrayView bufLen sz voxOffset (d1 * d2 * d3) with e | u
      · exact iff_of_true rfl (Or.inr (Or.inl hc0))
      · exact iff_of_true rfl (Or.inr (Or.inl hc0))

/-- Counterexample to C1 as stated: a 400-byte buffer with supported
datatype INT16 (code 4), voxel offset 349 and a single voxel.  The declared
payload (2 bytes) fits in the 51 remaining bytes and the datatype is
supported, so the claimed failure condition is false, yet the decode throws:
`new Int16Array(buffer, 349, 1)` raises a `RangeError` because the start
offset 349 is not a multiple of the element size 2. -/
theorem c1_counterexample :
    decodeFailed (decodeScan 400 4 349 1 1 1) = true ∧
    ¬ claimC1FailureCond 400 4 349 1 1 1 := by
  constructor
  · rfl
  · intro h
    rcases h with h | ⟨sz, hsz, hlt⟩
    · exact absurd h (by simp [elemSizeOf])
    · rw [show elemSizeOf 4 = some 2 from rfl] at hsz
      cases hsz
      norm_num at hlt

/-- C8 (amended): for positive dimensions and positive physical spacings,
every component of the aspect ratio lies in `(0, 1]` and at least one
component equals `1.0`. -/
theorem c8_aspect_amended (d1 d2 d3 p1 p2 p3 : ℚ)
    (hd1 : 0 < d1) (hd2 : 0 < d2) (hd3 : 0 < d3)
    (hp1 : 0 < p1) (hp2 : 0 < p2) (hp3 : 0 < p3) :
    (0 < (aspectRatio d1 d2 d3 p1 p2 p3).x ∧ (aspectRatio d1 d2 d3 p1 p2 p3).x ≤ 1) ∧
    (0 < (aspectRatio d1 d2 d3 p1 p2 p3).y ∧ (aspectRatio d1 d2 d3 p1 p2 p3).y ≤ 1) ∧
    (0 < (aspectRatio d1 d2 d3 p1 p2 p3).z ∧ (aspectRatio d1 d2 d3 p1 p2 p3).z ≤ 1) ∧
    ((aspectRatio d1 d2 d3 p1 p2 p3).x = 1 ∨ (aspectRatio d1 d2 d3 p1 p2 p3).y = 1 ∨
      (aspectRatio d1 d2 d3 p1 p2 p3).z = 1) := by
  have he1 : 0 < d1 * p1 := mul_pos hd1 hp1
  have he2 : 0 < d2 * p2 := mul_pos hd2 hp2
  have he3 : 0 < d3 * p3 := mul_pos hd3 hp3
  have hM : 0 < max (d1 * p1) (max (d2 * p2) (d3 * p3)) :=
    lt_of_lt_of_le he1 (le_max_left _ _)
  simp only [aspectRatio]
  refine ⟨⟨div_pos he1 hM, (div_le_one hM).mpr (le_max_left _ _)⟩,
    ⟨div_pos he2 hM, (div_le_one hM).mpr (le_trans (le_max_left _ _) (le_max_right _ _))⟩,
    ⟨div_pos he3 hM, (div_le_one hM).mpr (le_trans (le_max_right _ _) (le_max_right _ _))⟩,
    ?_⟩
  rcases max_choice (d1 * p1) (max (d2 * p2) (d3 * p3)) with hc | hc
  · exact Or.inl (by rw [hc]; exact div_self he1.ne')
  · rcases max_choice (d2 * p2) (d3 * p3) with hc2 | hc2
    · refine Or.inr (Or.inl ?_)
      rw [hc, hc2]
      exact div_self he2.ne'
    · refine Or.inr (Or.inr ?_)
      rw [hc, hc2]
      exact div_self he3.ne'

/-- Witness for the amended C8 at a concrete input. -/
theorem c8_aspect_amended_witness :
    (0 < (aspectRatio 2 3 4 1 1 1).x ∧ (aspectRatio 2 3 4 1 1 1).x ≤ 1) ∧
    (0 < (aspectRatio 2 3 4 1 1 1).y ∧ (aspectRatio 2 3 4 1 1 1).y ≤ 1) ∧
    (0 < (aspectRatio 2 3 4 1 1 1).z ∧ (aspectRatio 2 3 4 1 1 1).z ≤ 1) ∧
    ((aspectRatio 2 3 4 1 1 1).x = 1 ∨ (aspectRatio 2 3 4 1 1 1).y = 1 ∨
      (aspectRatio 2 3 4 1 1 1).z = 1) :=
  c8_aspect_amended 2 3 4 1 1 1 (by norm_num) (by norm_num) (by norm_num)
    (by norm_num) (by norm_num) (by norm_num)

/-- Counterexample to C8 as stated: a cubic volume with unit spacing has
aspect ratio `(1, 1, 1)` — three components equal to `1.0`, not exactly one. -/
theorem c8_counterexample :
    aspectRatio 1 1 1 1 1 1 = ⟨1, 1, 1⟩ ∧ ¬ exactlyOneEqOne ⟨1, 1, 1⟩ := by
  constructor
  · simp [aspectRatio]
  · intro h
    rcases h with ⟨_, h, _⟩ | ⟨h, _, _⟩ | ⟨h, _, _⟩ <;> exact h rfl

/-- Shared bounds for the contrast sampler: the sample length is positive,
the stride is positive, strided reads stay inside the raw array, and both
percentile indices stay inside the sample. -/
theorem sampler_bounds (L : ℕ) (hL : 1 ≤ L) :
    1 ≤ sampleLen L ∧ 1 ≤ strideOf L ∧
    (∀ i, i < sampleLen L → i * strideOf L < L) ∧
    pctLoIdx (sampleLen L) < sampleLen L ∧
    pctHiIdx (sampleLen L) < sampleLen L := by
  have hn : 1 ≤ sampleLen L := le_min hL (by norm_num)
  have hnL : sampleLen L ≤ L := min_le_left _ _
  have hs : 1 ≤ strideOf L := (Nat.one_le_div_iff (by omega)).mpr hnL
  refine ⟨hn, hs, ?_, ?_, ?_⟩
  · intro i hi
    have h1 : (i + 1) * strideOf L ≤ sampleLen L * strideOf L :=
      Nat.mul_le_mul_right _ (by omega)
    have h2 : sampleLen L * strideOf L ≤ L := by
      have := Nat.div_mul_le_self L (sampleLen L)
      calc sampleLen L * strideOf L = strideOf L * sampleLen L := mul_comm _ _
        _ = L / sampleLen L * sampleLen L := rfl
        _ ≤ L := Nat.div_mul_le_self L (sampleLen L)
    have h3 : i * strideOf L + strideOf L = (i + 1) * strideOf L := by ring
    omega
  · have hmul : sampleLen L * 5 < sampleLen L * 100 :=
      mul_lt_mul_of_pos_left (by norm_num) (by omega)
    exact (Nat.div_lt_iff_lt_mul (by norm_num)).mpr hmul
  · have hmul : sampleLen L * 995 < sampleLen L * 1000 :=
      mul_lt_mul_of_pos_left (by norm_num) (by omega)
    exact (Nat.div_lt_iff_lt_mul (by norm_num)).mpr hmul

/-- The sorted sample has exactly `sampleLen` elements. -/
theorem length_sortedSample (raw : List ℚ) :
    (sortedSample raw).length = sampleLen raw.length := by
  unfold sortedSample contrastSample
  rw [List.length_insertionSort, List.length_map, List.length_range]

/-- C10: for a non-empty raw volume, every index the contrast windower reads
is in bounds — each strided index `i * stride` lies inside the raw array, and
the two percentile indices lie inside the sorted sample, so the window
minimum and maximum are always read from defined elements. -/
theorem c10_windower_reads_in_bounds (raw : List ℚ) (h : raw ≠ []) :
    (∀ i, i < sampleLen raw.length → i * strideOf raw.length < raw.length) ∧
    (sortedSample raw).length = sampleLen raw.length ∧
    pctLoIdx ((sortedSample raw).length) < (sortedSample raw).length ∧
    pctHiIdx ((sortedSample raw).length) < (sortedSample raw).length := by
  have hL : 1 ≤ raw.length := List.length_pos.mpr h
  obtain ⟨hn, hs, hstrided, hlo, hhi⟩ := sampler_bounds raw.length hL
  refine ⟨hstrided, length_sortedSample raw, ?_, ?_⟩
  · rw [length_sortedSample raw]
    exact hlo
  · rw [length_sortedSample raw]
    exact hhi

/-- Witness for C10 at a concrete input. -/
theorem c10_windower_reads_in_bounds_witness :
    (∀ i, i < sampleLen ([3, 1, 2] : List ℚ).length →
      i * strideOf ([3, 1, 2] : List ℚ).length < ([3, 1, 2] : List ℚ).length) ∧
    (sortedSample [3, 1, 2]).length = sampleLen ([3, 1, 2] : List ℚ).length ∧
    pctLoIdx ((sortedSample [3, 1, 2]).length) < (sortedSample [3, 1, 2]).length ∧
    pctHiIdx ((sortedSample [3, 1, 2]).length) < (sortedSample [3, 1, 2]).length :=
  c10_windower_reads_in_bounds [3, 1, 2] (by simp)

/-- C3: for a non-empty raw volume the contrast window satisfies
`min ≤ max`, its width is never zero, and when the selected maximum equals
the selected minimum the width is forced to `1.0`. -/
theorem c3_contrast_window (raw : List ℚ) (h : raw ≠ []) :
    windowMin raw ≤ windowMax raw ∧
    windowRange raw ≠ 0 ∧
    (windowMax raw = windowMin raw → windowRange raw = 1) := by
  have hL : 1 ≤ raw.length := List.length_pos.mpr h
  obtain ⟨hn, hs, hstrided, hlo, hhi⟩ := sampler_bounds raw.length hL
  have hlen := length_sortedSample raw
  have hlo' : pctLoIdx ((sortedSample raw).length) < (sortedSample raw).length := by
    rw [hlen]; exact hlo
  have hhi' : pctHiIdx ((sortedSample raw).length) < (sortedSample raw).length := by
    rw [hlen]; exact hhi
  have hsorted : (sortedSample raw).Sorted (· ≤ ·) :=
    List.sorted_insertionSort _ _
  have hidx : pctLoIdx ((sortedSample raw).length) ≤
      pctHiIdx ((sortedSample raw).length) := by
    unfold pctLoIdx pctHiIdx
    have h50 : (sortedSample raw).length * 5 / 100 =
        (sortedSample raw).length * 50 / 1000 := by
      have : (sortedSample raw).length * 50 = (sortedSample raw).length * 5 * 10 := by ring
      rw [this, show (1000 : ℕ) = 100 * 10 from rfl, Nat.mul_div_mul_right _ _ (by norm_num)]
    rw [h50]
    exact Nat.div_le_div_right (Nat.mul_le_mul_left _ (by norm_num))
  have hminmax : windowMin raw ≤ windowMax raw := by
    unfold windowMin windowMax
    rw [List.getD_eq_getElem _ _ hlo', List.getD_eq_getElem _ _ hhi']
    exact hsorted.rel_get_of_le hidx
  refine ⟨hminmax, ?_, ?_⟩
  · unfold windowRange
    split_ifs with h0
    · norm_num
    · exact h0
  · intro heq
    unfold windowRange
    rw [if_pos (by rw [heq]; ring)]

/-- Witness for C3 at a concrete input. -/
theorem c3_contrast_window_witness :
    windowMin [3, 1, 2] ≤ windowMax [3, 1, 2] ∧
    windowRange [3, 1, 2] ≠ 0 ∧
    (windowMax [3, 1, 2] = windowMin [3, 1, 2] → windowRange [3, 1, 2] = 1) :=
  c3_contrast_window [3, 1, 2] (by simp)

/-- GLSL `fract(x) = x - floor(x)`. -/
def fractQ (x : ℚ) : ℚ := x - ⌊x⌋

/-- GLSL `mix(x, y, a) = x * (1 - a) + y * a`. -/
def mixQ (x y a : ℚ) : ℚ := x * (1 - a) + y * a

/-- GLSL `smoothstep(e0, e1, x)`: clamp `(x - e0) / (e1 - e0)` to `[0, 1]`,
then apply the Hermite polynomial `t * t * (3 - 2 * t)`. -/
def smoothstepQ (e0 e1 x : ℚ) : ℚ :=
  let t := clampQ ((x - e0) / (e1 - e0)) 0 1
  t * t * (3 - 2 * t)

/-- Componentwise GLSL `mix` on `vec3`. -/
def mixV3 (a b : Vec3) (w : ℚ) : Vec3 :=
  ⟨mixQ a.x b.x w, mixQ a.y b.y w, mixQ a.z b.z w⟩

/-- The shader helper `hsv2rgb` (VolumeMaterial fragment shader lines 52–56):
with `K = (1, 2/3, 1/3, 3)`, `p = abs(fract(c.xxx + K.xyz) * 6 - K.www)` and
result `c.z * mix(K.xxx, clamp(p - K.xxx, 0, 1), c.y)`. -/
def hsv2rgb (c : Vec3) : Vec3 :=
  ⟨c.z * mixQ 1 (clampQ (|fractQ (c.x + 1) * 6 - 3| - 1) 0 1) c.y,
   c.z * mixQ 1 (clampQ (|fractQ (c.x + 2/3) * 6 - 3| - 1) 0 1) c.y,
   c.z * mixQ 1 (clampQ (|fractQ (c.x + 1/3) * 6 - 3| - 1) 0 1) c.y⟩

/-- The shader function `colorMapFn` (VolumeMaterial fragment shader lines 58–91):
clamp `t` into `[0, 1]`, then dispatch on the palette id — 0 jet, 1 hsv,
2 turbo approximation, 3 inferno approximation, grayscale fallback otherwise. -/
def colorMapFn (mapId : ℤ) (t0 : ℚ) : Vec3 :=
  let t := clampQ t0 0 1
  if mapId = 0 then
    ⟨clampQ (3/2 - |4 * (t - 3/4)|) 0 1,
     clampQ (3/2 - |4 * (t - 1/2)|) 0 1,
     clampQ (3/2 - |4 * (t - 1/4)|) 0 1⟩
  else if mapId = 1 then
    hsv2rgb ⟨t, 1, 1⟩
  else if mapId = 2 then
    let c1 : Vec3 := ⟨19/100, 7/100, 23/100⟩
    let c2 : Vec3 := ⟨7/100, 62/100, 95/100⟩
    let c3 : Vec3 := ⟨90/100, 90/100, 10/100⟩
    let c4 : Vec3 := ⟨80/100, 20/100, 10/100⟩
    let a := mixV3 c1 c2 (smoothstepQ 0 (35/100) t)
    let b := mixV3 c3 c4 (smoothstepQ (65/100) 1 t)
    mixV3 a b (smoothstepQ (35/100) (65/100) t)
  else if mapId = 3 then
    let d : Vec3 := ⟨0, 0, 0⟩
    let e : Vec3 := ⟨22/100, 2/100, 19/100⟩
    let f : Vec3 := ⟨88/100, 19/100, 12/100⟩
    let g : Vec3 := ⟨1, 98/100, 80/100⟩
    let a := mixV3 d e (smoothstepQ 0 (25/100) t)
    let b := mixV3 f g (smoothstepQ (55/100) 1 t)
    mixV3 a b (smoothstepQ (25/100) (55/100) t)
  else
    ⟨t, t, t⟩

/-- The slab-method ray/box intersection `hitBox` (fragment shader lines
94–105) against the unit cube `[-0.5, 0.5]^3`: per axis, the two parametric
distances `(box_min - orig) * (1 / dir)` and `(box_max - orig) * (1 / dir)`
are ordered into a near and a far value; the entry distance is the maximum
of the per-axis near values and the exit distance the minimum of the
per-axis far values. -/
def hitBox (orig dir : Vec3) : ℚ × ℚ :=
  let a1 := (-(1/2) - orig.x) * (1 / dir.x)
  let b1 := (1/2 - orig.x) * (1 / dir.x)
  let a2 := (-(1/2) - orig.y) * (1 / dir.y)
  let b2 := (1/2 - orig.y) * (1 / dir.y)
  let a3 := (-(1/2) - orig.z) * (1 / dir.z)
  let b3 := (1/2 - orig.z) * (1 / dir.z)
  (max (min a1 b1) (max (min a2 b2) (min a3 b3)),
   min (max a1 b1) (min (max a2 b2) (max a3 b3)))

/-- The ray misses the box: the discard condition of fragment shader
line 112, `t_hit.x > t_hit.y || t_hit.y < 0.0`. -/
def boxMiss (orig dir : Vec3) : Prop :=
  (hitBox orig dir).1 > (hitBox orig dir).2 ∨ (hitBox orig dir).2 < 0

/-- The point `vOrigin + rayDir * t` on the ray at parametric distance `t`. -/
def pointAt (orig dir : Vec3) (t : ℚ) : Vec3 :=
  ⟨orig.x + t * dir.x, orig.y + t * dir.y, orig.z + t * dir.z⟩

/-- Membership in the closed unit cube `[-0.5, 0.5]^3`. -/
def inCube (p : Vec3) : Prop :=
  -(1/2) ≤ p.x ∧ p.x ≤ 1/2 ∧ -(1/2) ≤ p.y ∧ p.y ≤ 1/2 ∧ -(1/2) ≤ p.z ∧ p.z ≤ 1/2

/-- The render-state record mirrored from the shader uniforms
(`u_thresholdMin`, `u_thresholdMax`, `u_opacity`, `u_brightness`,
`u_clipping`, `u_clipX/Y/Z`, `u_colorMode`, `u_colorMap`, `u_useColorMap`);
`colorMode` is declared by the shader but never read in `main`. -/
structure Uniforms where
  thresholdMin : ℚ
  thresholdMax : ℚ
  opacity : ℚ
  brightness : ℚ
  clipping : Bool
  clipX : ℚ
  clipY : ℚ
  clipZ : ℚ
  colorMode : ℤ
  colorMap : ℤ
  useColorMap : Bool

/-- The default uniform values of `VolumeShader.uniforms`. -/
def defaultUniforms : Uniforms :=
  ⟨8/100, 35/100, 12, 8, false, 1, 1, 1, 0, 0, true⟩

/-- The texture coordinate of the sample at distance `t` (fragment shader
lines 123–125): `uvw = localPos + 0.5` with the vertical axis inverted. -/
def uvwAt (orig dir : Vec3) (t : ℚ) : Vec3 :=
  ⟨(orig.x + dir.x * t) + 1/2,
   1 - ((orig.y + dir.y * t) + 1/2),
   (orig.z + dir.z * t) + 1/2⟩

/-- The clipping test of fragment shader line 127:
`u_clipping && (uvw.x > u_clipX || uvw.y > u_clipY || uvw.z > u_clipZ)`. -/
def isClipped (u : Uniforms) (uvw : Vec3) : Bool :=
  u.clipping && (decide (uvw.x > u.clipX) || decide (uvw.y > u.clipY) ||
    decide (uvw.z > u.clipZ))

/-- The per-ray accumulator `vec4 accum` (rgb colour plus alpha). -/
structure Accum where
  r : ℚ
  g : ℚ
  b : ℚ
  a : ℚ

/-- The all-zero initial accumulator `vec4(0.0)` (fragment shader line 119). -/
def accumZero : Accum := ⟨0, 0, 0, 0⟩

/-- One iteration body of the marching loop (fragment shader lines 123–148):
sample the volume at `uvw` unless clipped, apply the band-pass transfer
inside `[u_thresholdMin, u_thresholdMax]`, compute the edge-emphasis and
tone curves, and blend front-to-back into the accumulator.  The field
`field` models `texture(u_data, uvw).r` and `powq` models `pow(·, 0.4)`. -/
def stepBody (powq : ℚ → ℚ) (field : Vec3 → ℚ) (u : Uniforms)
    (orig dir : Vec3) (t : ℚ) (acc : Accum) : Accum :=
  let uvw := uvwAt orig dir t
  if isClipped u uvw then acc
  else
    let val := field uvw
    if u.thresholdMin ≤ val ∧ val ≤ u.thresholdMax then
      let denom := max (1/100000) (u.thresholdMax - u.thresholdMin)
      let norm := clampQ ((val - u.thresholdMin) / denom) 0 1
      let edge := smoothstepQ 0 1 ((norm - 15/100) * (17/10))
      let enhanced := powq norm
      let alpha := edge * u.opacity * (2/1000)
      let base := if u.useColorMap then colorMapFn u.colorMap enhanced
                  else Vec3.mk enhanced enhanced enhanced
      ⟨acc.r + (1 - acc.a) * (base.x * u.brightness) * alpha,
       acc.g + (1 - acc.a) * (base.y * u.brightness) * alpha,
       acc.b + (1 - acc.a) * (base.z * u.brightness) * alpha,
       acc.a + (1 - acc.a) * alpha⟩
    else acc

/-- The per-step alpha contribution: `edge * u_opacity * 0.0020` for an
unclipped in-band sample (fragment shader line 141), `0` when the sample is
clipped or falls outside the visibility band. -/
def stepAlpha (field : Vec3 → ℚ) (u : Uniforms) (orig dir : Vec3) (t : ℚ) : ℚ :=
  let uvw := uvwAt orig dir t
  if isClipped u uvw then 0
  else
    let val := field uvw
    if u.thresholdMin ≤ val ∧ val ≤ u.thresholdMax then
      let denom := max (1/100000) (u.thresholdMax - u.thresholdMin)
      let norm := clampQ ((val - u.thresholdMin) / denom) 0 1
      smoothstepQ 0 1 ((norm - 15/100) * (17/10)) * u.opacity * (2/1000)
    else 0

/-- The marching loop (fragment shader lines 121–152) with an explicit fuel
equal to the remaining iteration budget: each iteration applies `stepBody`
at the current distance, then breaks when `accum.a >= 0.95`, otherwise
advances `t` by `t_step`.  Returns the final accumulator together with the
number of iterations executed. -/
def marchLoop (powq : ℚ → ℚ) (field : Vec3 → ℚ) (u : Uniforms)
    (orig dir : Vec3) (tstep : ℚ) : ℕ → ℚ → Accum → Accum × ℕ
  | 0, _, acc => (acc, 0)
  | n + 1, t, acc =>
    let acc1 := stepBody powq field u orig dir t acc
    if (19/20 : ℚ) ≤ acc1.a then (acc1, 1)
    else
      let rest := marchLoop powq field u orig dir tstep n (t + tstep) acc1
      (rest.1, rest.2 + 1)

/-- The state of the accumulator after `j` unconditional iterations of the
loop body starting at distance `t` (the loop without its break). -/
def iterFrom (powq : ℚ → ℚ) (field : Vec3 → ℚ) (u : Uniforms)
    (orig dir : Vec3) (tstep : ℚ) : ℚ → Accum → ℕ → Accum
  | _, acc, 0 => acc
  | t, acc, j + 1 =>
    iterFrom powq field u orig dir tstep (t + tstep)
      (stepBody powq field u orig dir t acc) j

/-- The fixed step budget `const int MAX_STEPS = 160`. -/
def MAX_STEPS : ℕ := 160

/-- The clamped marching start `t_start = max(t_hit.x, 0.0)` (line 115). -/
def tStartOf (orig dir : Vec3) : ℚ := max (hitBox orig dir).1 0

/-- The marching end `t_end = t_hit.y` (line 116). -/
def tEndOf (orig dir : Vec3) : ℚ := (hitBox orig dir).2

/-- The step size `t_step = (t_end - t_start) / float(MAX_STEPS)` (line 117). -/
def tStepOf (orig dir : Vec3) : ℚ := (tEndOf orig dir - tStartOf orig dir) / 160

/-- The full march of one ray: run the loop over the visible span with the
fixed budget, starting from the zero accumulator. -/
def rayMarch (powq : ℚ → ℚ) (field : Vec3 → ℚ) (u : Uniforms)
    (orig dir : Vec3) : Accum × ℕ :=
  marchLoop powq field u orig dir (tStepOf orig dir) MAX_STEPS
    (tStartOf orig dir) accumZero

/-- The fragment `main` (lines 107–156): intersect the ray with the box and
discard on a miss (`none`), march, then discard when the terminal alpha is
below `0.01`; otherwise emit `(accum.rgb, accum.a)`.  The direction argument
stands for the already normalized `rayDir`; normalization only rescales the
parametrization and every claim quantifies over arbitrary directions. -/
def shaderMain (powq : ℚ → ℚ) (field : Vec3 → ℚ) (u : Uniforms)
    (orig dir : Vec3) : Option (Vec3 × ℚ) :=
  if (hitBox orig dir).1 > (hitBox orig dir).2 ∨ (hitBox orig dir).2 < 0 then none
  else
    let acc := (rayMarch powq field u orig dir).1
    if acc.a < 1/100 then none
    else some (⟨acc.r, acc.g, acc.b⟩, acc.a)

/-- The clamp to `[0, 1]` lands in `[0, 1]`. -/
theorem clampQ01_mem (x : ℚ) : 0 ≤ clampQ x 0 1 ∧ clampQ x 0 1 ≤ 1 := by
  unfold clampQ
  exact ⟨le_min (le_max_right x 0) zero_le_one, min_le_right _ _⟩

/-- Clamping a value already in `[0, 1]` is the identity. -/
theorem clampQ01_eq_self {y : ℚ} (h0 : 0 ≤ y) (h1 : y ≤ 1) : clampQ y 0 1 = y := by
  unfold clampQ
  rw [max_eq_left h0, min_eq_left h1]

/-- Clamping to `[0, 1]` is idempotent. -/
theorem clampQ01_idem (x : ℚ) : clampQ (clampQ x 0 1) 0 1 = clampQ x 0 1 :=
  clampQ01_eq_self (clampQ01_mem x).1 (clampQ01_mem x).2

/-- GLSL `smoothstep` always lands in `[0, 1]`. -/
theorem smoothstepQ_mem (e0 e1 x : ℚ) :
    0 ≤ smoothstepQ e0 e1 x ∧ smoothstepQ e0 e1 x ≤ 1 := by
  obtain ⟨h0, h1⟩ := clampQ01_mem ((x - e0) / (e1 - e0))
  simp only [smoothstepQ]
  set c := clampQ ((x - e0) / (e1 - e0)) 0 1 with hc
  constructor
  · nlinarith
  · nlinarith [mul_nonneg (mul_nonneg (sub_nonneg.mpr h1) (sub_nonneg.mpr h1)) h0,
      sq_nonneg (1 - c)]

/-- GLSL `mix` of two values in `[0, 1]` by a weight in `[0, 1]` lands in `[0, 1]`. -/
theorem mixQ_mem {x y a : ℚ} (hx0 : 0 ≤ x) (hx1 : x ≤ 1) (hy0 : 0 ≤ y)
    (hy1 : y ≤ 1) (ha0 : 0 ≤ a) (ha1 : a ≤ 1) :
    0 ≤ mixQ x y a ∧ mixQ x y a ≤ 1 := by
  unfold mixQ
  constructor
  · nlinarith
  · nlinarith

/-- Interpolating twice through four anchors in `[0, 1]` stays in `[0, 1]`. -/
theorem mix_mix_mem {x1 x2 x3 x4 w1 w2 w3 : ℚ}
    (h1 : 0 ≤ x1 ∧ x1 ≤ 1) (h2 : 0 ≤ x2 ∧ x2 ≤ 1)
    (h3 : 0 ≤ x3 ∧ x3 ≤ 1) (h4 : 0 ≤ x4 ∧ x4 ≤ 1)
    (hw1 : 0 ≤ w1 ∧ w1 ≤ 1) (hw2 : 0 ≤ w2 ∧ w2 ≤ 1) (hw3 : 0 ≤ w3 ∧ w3 ≤ 1) :
    0 ≤ mixQ (mixQ x1 x2 w1) (mixQ x3 x4 w2) w3 ∧
      mixQ (mixQ x1 x2 w1) (mixQ x3 x4 w2) w3 ≤ 1 := by
  obtain ⟨ha0, ha1⟩ := mixQ_mem h1.1 h1.2 h2.1 h2.2 hw1.1 hw1.2
  obtain ⟨hb0, hb1⟩ := mixQ_mem h3.1 h3.2 h4.1 h4.2 hw2.1 hw2.2
  exact mixQ_mem ha0 ha1 hb0 hb1 hw3.1 hw3.2

/-- GLSL `mix(x, y, 1.0) = y`. -/
theorem mixQ_one (x y : ℚ) : mixQ x y 1 = y := by
  unfold mixQ
  ring

/-- Every component of every palette value lies in `[0, 1]`. -/
theorem colorMapFn_mem (mapId : ℤ) (t : ℚ) :
    (0 ≤ (colorMapFn mapId t).x ∧ (colorMapFn mapId t).x ≤ 1) ∧
    (0 ≤ (colorMapFn mapId t).y ∧ (colorMapFn mapId t).y ≤ 1) ∧
    (0 ≤ (colorMapFn mapId t).z ∧ (colorMapFn mapId t).z ≤ 1) := by
  by_cases h0 : mapId = 0
  · subst h0
    norm_num [colorMapFn]
    exact ⟨clampQ01_mem _, clampQ01_mem _, clampQ01_mem _⟩
  · by_cases h1 : mapId = 1
    · subst h1
      norm_num [colorMapFn, hsv2rgb, mixQ_one]
      exact ⟨clampQ01_mem _, clampQ01_mem _, clampQ01_mem _⟩
    · by_cases h2 : mapId = 2
      · subst h2
        norm_num [colorMapFn, mixV3]
        refine ⟨⟨?_, ?_⟩, ⟨?_, ?_⟩, ?_, ?_⟩ <;>
          first
          | exact (mix_mix_mem (by norm_num) (by norm_num) (by norm_num) (by norm_num)
              (smoothstepQ_mem _ _ _) (smoothstepQ_mem _ _ _) (smoothstepQ_mem _ _ _)).1
          | exact (mix_mix_mem (by norm_num) (by norm_num) (by norm_num) (by norm_num)
              (smoothstepQ_mem _ _ _) (smoothstepQ_mem _ _ _) (smoothstepQ_mem _ _ _)).2
      · by_cases h3 : mapId = 3
        · subst h3
          norm_num [colorMapFn, mixV3]
          refine ⟨⟨?_, ?_⟩, ⟨?_, ?_⟩, ?_, ?_⟩ <;>
            first
            | exact (mix_mix_mem (by norm_num) (by norm_num) (by norm_num) (by norm_num)
                (smoothstepQ_mem _ _ _) (smoothstepQ_mem _ _ _) (smoothstepQ_mem _ _ _)).1
            | exact (mix_mix_mem (by norm_num) (by norm_num) (by norm_num) (by norm_num)
                (smoothstepQ_mem _ _ _) (smoothstepQ_mem _ _ _) (smoothstepQ_mem _ _ _)).2
        · simp only [colorMapFn, if_neg h0, if_neg h1, if_neg h2, if_neg h3]
          exact ⟨clampQ01_mem _, clampQ01_mem _, clampQ01_mem _⟩

/-- C9: every palette function first clamps `t` into `[0, 1]`; each resulting
component lies in `[0, 1]`; and any palette id outside `{0, 1, 2, 3}` yields
the grayscale replication of the clamped value. -/
theorem c9_palettes (mapId : ℤ) (t : ℚ) :
    colorMapFn mapId t = colorMapFn mapId (clampQ t 0 1) ∧
    (0 ≤ (colorMapFn mapId t).x ∧ (colorMapFn mapId t).x ≤ 1) ∧
    (0 ≤ (colorMapFn mapId t).y ∧ (colorMapFn mapId t).y ≤ 1) ∧
    (0 ≤ (colorMapFn mapId t).z ∧ (colorMapFn mapId t).z ≤ 1) ∧
    (¬(mapId = 0 ∨ mapId = 1 ∨ mapId = 2 ∨ mapId = 3) →
      colorMapFn mapId t = ⟨clampQ t 0 1, clampQ t 0 1, clampQ t 0 1⟩) := by
  obtain ⟨hx, hy, hz⟩ := colorMapFn_mem mapId t
  refine ⟨?_, hx, hy, hz, ?_⟩
  · simp only [colorMapFn, clampQ01_idem]
  · intro hnot
    push_neg at hnot
    obtain ⟨h0, h1, h2, h3⟩ := hnot
    simp only [colorMapFn, if_neg h0, if_neg h1, if_neg h2, if_neg h3]

/-- Witness for C9: an invalid palette id and an out-of-range scalar produce
the grayscale replication of the clamped value. -/
theorem c9_palettes_witness :
    colorMapFn 7 2 = ⟨clampQ 2 0 1, clampQ 2 0 1, clampQ 2 0 1⟩ :=
  (c9_palettes 7 2).2.2.2.2 (by norm_num)

/-- One axis of the slab method: for a nonzero direction component, the slab
interval between the two parametric distances is exactly the set of `t` whose
ray point lies within `[-0.5, 0.5]` on that axis. -/
theorem slab_axis (o : ℚ) {d : ℚ} (hd : d ≠ 0) (t : ℚ) :
    (-(1/2) ≤ o + t * d ∧ o + t * d ≤ 1/2) ↔
    (min ((-(1/2) - o) * (1 / d)) ((1/2 - o) * (1 / d)) ≤ t ∧
      t ≤ max ((-(1/2) - o) * (1 / d)) ((1/2 - o) * (1 / d))) := by
  rw [mul_one_div, mul_one_div]
  rcases hd.lt_or_lt with hneg | hpos
  · have hBA : (1/2 - o) / d ≤ (-(1/2) - o) / d := by
      rw [div_le_iff_of_neg hneg, div_mul_cancel₀ _ (ne_of_lt hneg)]
      linarith
    rw [min_eq_right hBA, max_eq_left hBA]
    rw [div_le_iff_of_neg hneg, le_div_iff_of_neg hneg]
    constructor
    · rintro ⟨h1, h2⟩
      exact ⟨by linarith, by linarith⟩
    · rintro ⟨h1, h2⟩
      exact ⟨by linarith, by linarith⟩
  · have hAB : (-(1/2) - o) / d ≤ (1/2 - o) / d :=
      (div_le_div_right hpos).mpr (by linarith)
    rw [min_eq_left hAB, max_eq_right hAB]
    rw [div_le_iff₀ hpos, le_div_iff₀ hpos]
    constructor
    · rintro ⟨h1, h2⟩
      exact ⟨by linarith, by linarith⟩
    · rintro ⟨h1, h2⟩
      exact ⟨by linarith, by linarith⟩

/-- A parametric distance whose ray point sits exactly at the axis origin is
strictly between the two slab distances of that axis. -/
theorem slab_axis_center (o : ℚ) {d : ℚ} (hd : d ≠ 0) {s : ℚ}
    (hc : o + s * d = 0) :
    min ((-(1/2) - o) * (1 / d)) ((1/2 - o) * (1 / d)) < s ∧
    s < max ((-(1/2) - o) * (1 / d)) ((1/2 - o) * (1 / d)) := by
  rw [mul_one_div, mul_one_div]
  have hsd : s * d = -o := by linarith
  rcases hd.lt_or_lt with hneg | hpos
  · have hBA : (1/2 - o) / d ≤ (-(1/2) - o) / d := by
      rw [div_le_iff_of_neg hneg, div_mul_cancel₀ _ (ne_of_lt hneg)]
      linarith
    rw [min_eq_right hBA, max_eq_left hBA]
    constructor
    · rw [div_lt_iff_of_neg hneg]
      linarith
    · rw [lt_div_iff_of_neg hneg]
      linarith
  · have hAB : (-(1/2) - o) / d ≤ (1/2 - o) / d :=
      (div_le_div_right hpos).mpr (by linarith)
    rw [min_eq_left hAB, max_eq_right hAB]
    constructor
    · rw [div_lt_iff₀ hpos]
      linarith
    · rw [lt_div_iff₀ hpos]
      linarith

/-- For nonzero direction components the point at distance `t` lies in the
unit cube exactly when `t` lies between the slab entry and exit distances. -/
theorem mem_cube_iff (orig dir : Vec3) (hx : dir.x ≠ 0) (hy : dir.y ≠ 0)
    (hz : dir.z ≠ 0) (t : ℚ) :
    inCube (pointAt orig dir t) ↔
    ((hitBox orig dir).1 ≤ t ∧ t ≤ (hitBox orig dir).2) := by
  unfold inCube pointAt hitBox
  dsimp only
  rw [max_le_iff, max_le_iff, le_min_iff, le_min_iff]
  constructor
  · rintro ⟨p1, p2, p3, p4, p5, p6⟩
    have a1 := (slab_axis orig.x hx t).mp ⟨p1, p2⟩
    have a2 := (slab_axis orig.y hy t).mp ⟨p3, p4⟩
    have a3 := (slab_axis orig.z hz t).mp ⟨p5, p6⟩
    exact ⟨⟨a1.1, a2.1, a3.1⟩, a1.2, a2.2, a3.2⟩
  · rintro ⟨⟨q1, q2, q3⟩, r1, r2, r3⟩
    have a1 := (slab_axis orig.x hx t).mpr ⟨q1, r1⟩
    have a2 := (slab_axis orig.y hy t).mpr ⟨q2, r2⟩
    have a3 := (slab_axis orig.z hz t).mpr ⟨q3, r3⟩
    exact ⟨a1.1, a1.2, a2.1, a2.2, a3.1, a3.2⟩

/-- C5: for a ray with nonzero direction components, the discard condition
`entry > exit || exit < 0` holds exactly when no point of the forward ray
lies in the unit cube (so a ray starting outside and pointing away is
discarded); a discarded ray produces no fragment; and a ray through the
cube center has entry distance strictly less than exit distance. -/
theorem c5_raybox (orig dir : Vec3) (hx : dir.x ≠ 0) (hy : dir.y ≠ 0)
    (hz : dir.z ≠ 0) :
    (boxMiss orig dir ↔ ∀ t : ℚ, 0 ≤ t → ¬ inCube (pointAt orig dir t)) ∧
    (∀ (powq : ℚ → ℚ) (field : Vec3 → ℚ) (u : Uniforms),
      boxMiss orig dir → shaderMain powq field u orig dir = none) ∧
    ((∃ s : ℚ, pointAt orig dir s = ⟨0, 0, 0⟩) →
      (hitBox orig dir).1 < (hitBox orig dir).2) := by
  refine ⟨⟨?_, ?_⟩, ?_, ?_⟩
  · intro hmiss t ht hin
    rw [mem_cube_iff orig dir hx hy hz t] at hin
    rcases hmiss with hgt | hneg
    · linarith [hin.1, hin.2]
    · linarith [hin.2]
  · intro hnone
    by_contra hmiss
    unfold boxMiss at hmiss
    push_neg at hmiss
    obtain ⟨hle, hpos⟩ := hmiss
    refine hnone (max (hitBox orig dir).1 0) (le_max_right _ _) ?_
    rw [mem_cube_iff orig dir hx hy hz]
    exact ⟨le_max_left _ _, max_le hle hpos⟩
  · intro powq field u hmiss
    unfold shaderMain
    split_ifs with hc
    · rfl
    · exact absurd hmiss hc
  · rintro ⟨s, hs⟩
    have hcx : orig.x + s * dir.x = 0 := by
      have := congrArg Vec3.x hs
      simpa [pointAt] using this
    have hcy : orig.y + s * dir.y = 0 := by
      have := congrArg Vec3.y hs
      simpa [pointAt] using this
    have hcz : orig.z + s * dir.z = 0 := by
      have := congrArg Vec3.z hs
      simpa [pointAt] using this
    obtain ⟨l1, r1⟩ := slab_axis_center orig.x hx hcx
    obtain ⟨l2, r2⟩ := slab_axis_center orig.y hy hcy
    obtain ⟨l3, r3⟩ := slab_axis_center orig.z hz hcz
    unfold hitBox
    dsimp only
    exact lt_trans (max_lt l1 (max_lt l2 l3)) (lt_min r1 (lt_min r2 r3))

/-- Witness for C5: a ray from `(2, 2, 2)` in direction `(1, 1, 1)` points
away from the cube, and the fragment is discarded. -/
theorem c5_raybox_witness :
    shaderMain (fun q => q) (fun _ => 0) defaultUniforms ⟨2, 2, 2⟩ ⟨1, 1, 1⟩ =
      none :=
  (c5_raybox ⟨2, 2, 2⟩ ⟨1, 1, 1⟩ (by norm_num) (by norm_num) (by norm_num)).2.1
    (fun q => q) (fun _ => 0) defaultUniforms
    (by norm_num [boxMiss, hitBox])

/-- The alpha update of one loop iteration is the front-to-back blend of the
per-step alpha contribution: `accum.a += (1 - accum.a) * alpha`, where the
contribution is zero for clipped or out-of-band samples. -/
theorem stepBody_alpha (powq : ℚ → ℚ) (field : Vec3 → ℚ) (u : Uniforms)
    (orig dir : Vec3) (t : ℚ) (acc : Accum) :
    (stepBody powq field u orig dir t acc).a =
    acc.a + (1 - acc.a) * stepAlpha field u orig dir t := by
  simp only [stepBody, stepAlpha]
  split_ifs <;>
    first
    | ring
    | (dsimp only; ring)

/-- Peeling one iteration off the back: the state after `j + 1` iterations is
the loop body applied at distance `t + j * tstep` to the state after `j`. -/
theorem iterFrom_succ_back (powq : ℚ → ℚ) (field : Vec3 → ℚ) (u : Uniforms)
    (orig dir : Vec3) (tstep : ℚ) :
    ∀ (j : ℕ) (t : ℚ) (acc : Accum),
      iterFrom powq field u orig dir tstep t acc (j + 1) =
      stepBody powq field u orig dir (t + j * tstep)
        (iterFrom powq field u orig dir tstep t acc j) := by
  intro j
  induction j with
  | zero =>
    intro t acc
    show stepBody powq field u orig dir t acc =
      stepBody powq field u orig dir (t + 0 * tstep) acc
    norm_num
  | succ k ih =>
    intro t acc
    show iterFrom powq field u orig dir tstep (t + tstep)
        (stepBody powq field u orig dir t acc) (k + 1) = _
    rw [ih]
    congr 1
    · push_cast
      ring

/-- Full characterization of the marching loop: the executed step count never
exceeds the fuel, the final accumulator is the unconditional iterate at that
count, stopping strictly before the fuel runs out happens only at saturation
(`accum.a >= 0.95`), and every earlier visited state was unsaturated. -/
theorem marchLoop_spec (powq : ℚ → ℚ) (field : Vec3 → ℚ) (u : Uniforms)
    (orig dir : Vec3) (tstep : ℚ) :
    ∀ (n : ℕ) (t : ℚ) (acc : Accum),
      (marchLoop powq field u orig dir tstep n t acc).2 ≤ n ∧
      (marchLoop powq field u orig dir tstep n t acc).1 =
        iterFrom powq field u orig dir tstep t acc
          (marchLoop powq field u orig dir tstep n t acc).2 ∧
      ((marchLoop powq field u orig dir tstep n t acc).2 < n →
        19/20 ≤ (marchLoop powq field u orig dir tstep n t acc).1.a) ∧
      (∀ j, 1 ≤ j → j < (marchLoop powq field u orig dir tstep n t acc).2 →
        (iterFrom powq field u orig dir tstep t acc j).a < 19/20) := by
  intro n
  induction n with
  | zero =>
    intro t acc
    refine ⟨le_refl 0, rfl, ?_, ?_⟩
    · intro h
      exact absurd h (lt_irrefl 0)
    · intro j h1 h2
      exact absurd h2 (Nat.not_lt_zero j)
  | succ n ih =>
    intro t acc
    simp only [marchLoop]
    split_ifs with hsat
    · refine ⟨by omega, rfl, ?_, ?_⟩
      · intro _
        exact hsat
      · intro j h1 h2
        exact absurd h2 (by omega)
    · obtain ⟨ih1, ih2, ih3, ih4⟩ :=
        ih (t + tstep) (stepBody powq field u orig dir t acc)
      refine ⟨by omega, ih2, ?_, ?_⟩
      · intro h
        exact ih3 (by omega)
      · intro j h1 h2
        obtain ⟨k, rfl⟩ : ∃ k, j = k + 1 := ⟨j - 1, by omega⟩
        rcases Nat.eq_zero_or_pos k with hk | hk
        · subst hk
          exact not_le.mp hsat
        · exact ih4 k hk (by omega)

/-- C4: for a ray that enters the volume, the marching loop executes at most
160 steps; the step size equals the visible span divided by 160; the final
accumulator equals the unconditional iterate at the executed step count; an
early stop implies the accumulated alpha reached at least 0.95; and no state
visited before the stop was saturated — so saturation is the only early exit. -/
theorem c4_march_budget (powq : ℚ → ℚ) (field : Vec3 → ℚ) (u : Uniforms)
    (orig dir : Vec3) (henter : ¬ boxMiss orig dir) :
    (rayMarch powq field u orig dir).2 ≤ 160 ∧
    tStepOf orig dir = (tEndOf orig dir - tStartOf orig dir) / 160 ∧
    (rayMarch powq field u orig dir).1 =
      iterFrom powq field u orig dir (tStepOf orig dir) (tStartOf orig dir)
        accumZero (rayMarch powq field u orig dir).2 ∧
    ((rayMarch powq field u orig dir).2 < 160 →
      19/20 ≤ (rayMarch powq field u orig dir).1.a) ∧
    (∀ j, 1 ≤ j → j < (rayMarch powq field u orig dir).2 →
      (iterFrom powq field u orig dir (tStepOf orig dir) (tStartOf orig dir)
        accumZero j).a < 19/20) := by
  obtain ⟨h1, h2, h3, h4⟩ := marchLoop_spec powq field u orig dir
    (tStepOf orig dir) MAX_STEPS (tStartOf orig dir) accumZero
  exact ⟨h1, rfl, h2, h3, h4⟩

/-- Witness for C4 at a concrete ray through the volume. -/
theorem c4_march_budget_witness :
    (rayMarch (fun q => q) (fun _ => 0) defaultUniforms ⟨0, 0, 0⟩ ⟨1, 1, 1⟩).2 ≤
      160 :=
  (c4_march_budget (fun q => q) (fun _ => 0) defaultUniforms ⟨0, 0, 0⟩ ⟨1, 1, 1⟩
    (by norm_num [boxMiss, hitBox])).1

/-- C6: a sample whose value lies strictly outside the visibility band leaves
the accumulator unchanged (hard cutoff), and a volume every point of which
samples strictly outside the band yields terminal alpha below 0.01 and a
discarded fragment. -/
theorem c6_bandpass_cutoff (powq : ℚ → ℚ) (field : Vec3 → ℚ) (u : Uniforms)
    (orig dir : Vec3) :
    (∀ (t : ℚ) (acc : Accum),
      (field (uvwAt orig dir t) < u.thresholdMin ∨
        u.thresholdMax < field (uvwAt orig dir t)) →
      stepBody powq field u orig dir t acc = acc) ∧
    ((∀ p : Vec3, field p < u.thresholdMin ∨ u.thresholdMax < field p) →
      (rayMarch powq field u orig dir).1.a < 1/100 ∧
      shaderMain powq field u orig dir = none) := by
  have hstep : ∀ (t : ℚ) (acc : Accum),
      (field (uvwAt orig dir t) < u.thresholdMin ∨
        u.thresholdMax < field (uvwAt orig dir t)) →
      stepBody powq field u orig dir t acc = acc := by
    intro t acc hout
    have hband : ¬(u.thresholdMin ≤ field (uvwAt orig dir t) ∧
        field (uvwAt orig dir t) ≤ u.thresholdMax) := by
      rcases hout with h | h
      · intro hb
        exact absurd hb.1 (not_le.mpr h)
      · intro hb
        exact absurd hb.2 (not_le.mpr h)
    simp only [stepBody]
    split_ifs with h1
    · rfl
    · rfl
  refine ⟨hstep, ?_⟩
  intro hall
  have hloop : ∀ (n : ℕ) (t : ℚ),
      marchLoop powq field u orig dir (tStepOf orig dir) n t accumZero =
      (accumZero, n) := by
    intro n
    induction n with
    | zero =>
      intro t
      rfl
    | succ n ih =>
      intro t
      simp only [marchLoop]
      rw [hstep t accumZero (hall _)]
      rw [if_neg (show ¬((19 : ℚ)/20 ≤ accumZero.a) by norm_num [accumZero])]
      rw [ih (t + tStepOf orig dir)]
  have hzero : (rayMarch powq field u orig dir).1.a = 0 := by
    unfold rayMarch
    rw [hloop MAX_STEPS (tStartOf orig dir)]
    rfl
  constructor
  · rw [hzero]
    norm_num
  · simp only [shaderMain]
    split_ifs with hc hlt
    · rfl
    · rfl
    · exact absurd (by rw [hzero]; norm_num) hlt

/-- Witness for C6: the zero volume lies strictly below the default lower
threshold, so the ray is discarded. -/
theorem c6_bandpass_cutoff_witness :
    shaderMain (fun q => q) (fun _ => 0) defaultUniforms ⟨0, 0, 0⟩ ⟨1, 1, 1⟩ =
      none :=
  ((c6_bandpass_cutoff (fun q => q) (fun _ => 0) defaultUniforms ⟨0, 0, 0⟩
    ⟨1, 1, 1⟩).2 (fun p => Or.inl (by norm_num [defaultUniforms]))).2

/-- C7: when every per-step alpha contribution lies in `[0, 1]`, the
accumulated alpha starts at `0`, never decreases from one iteration to the
next, stays within `[0, 1]` after every iteration, and hence any emitted
fragment has alpha in `[0, 1]`. -/
theorem c7_alpha_invariant (powq : ℚ → ℚ) (field : Vec3 → ℚ) (u : Uniforms)
    (orig dir : Vec3)
    (hstep : ∀ t : ℚ, 0 ≤ stepAlpha field u orig dir t ∧
      stepAlpha field u orig dir t ≤ 1) :
    accumZero.a = 0 ∧
    (∀ j : ℕ,
      (iterFrom powq field u orig dir (tStepOf orig dir) (tStartOf orig dir)
        accumZero j).a ≤
      (iterFrom powq field u orig dir (tStepOf orig dir) (tStartOf orig dir)
        accumZero (j + 1)).a) ∧
    (∀ j : ℕ,
      0 ≤ (iterFrom powq field u orig dir (tStepOf orig dir)
        (tStartOf orig dir) accumZero j).a ∧
      (iterFrom powq field u orig dir (tStepOf orig dir) (tStartOf orig dir)
        accumZero j).a ≤ 1) ∧
    (∀ (rgb : Vec3) (a : ℚ),
      shaderMain powq field u orig dir = some (rgb, a) → 0 ≤ a ∧ a ≤ 1) := by
  have hbody : ∀ (t : ℚ) (acc : Accum), 0 ≤ acc.a → acc.a ≤ 1 →
      acc.a ≤ (stepBody powq field u orig dir t acc).a ∧
      0 ≤ (stepBody powq field u orig dir t acc).a ∧
      (stepBody powq field u orig dir t acc).a ≤ 1 := by
    intro t acc h0 h1
    rw [stepBody_alpha]
    obtain ⟨s0, s1⟩ := hstep t
    refine ⟨?_, ?_, ?_⟩
    · nlinarith
    · nlinarith
    · nlinarith
  have hinv : ∀ (j : ℕ) (t : ℚ) (acc : Accum), 0 ≤ acc.a → acc.a ≤ 1 →
      0 ≤ (iterFrom powq field u orig dir (tStepOf orig dir) t acc j).a ∧
      (iterFrom powq field u orig dir (tStepOf orig dir) t acc j).a ≤ 1 := by
    intro j
    induction j with
    | zero =>
      intro t acc h0 h1
      exact ⟨h0, h1⟩
    | succ k ih =>
      intro t acc h0 h1
      obtain ⟨_, hb0, hb1⟩ := hbody t acc h0 h1
      exact ih (t + tStepOf orig dir) (stepBody powq field u orig dir t acc)
        hb0 hb1
  have hZ : (0 : ℚ) ≤ accumZero.a ∧ accumZero.a ≤ 1 := by
    norm_num [accumZero]
  refine ⟨rfl, ?_, ?_, ?_⟩
  · intro j
    rw [iterFrom_succ_back]
    obtain ⟨hj0, hj1⟩ := hinv j (tStartOf orig dir) accumZero hZ.1 hZ.2
    exact (hbody _ _ hj0 hj1).1
  · intro j
    exact hinv j (tStartOf orig dir) accumZero hZ.1 hZ.2
  · intro rgb a hsome
    simp only [shaderMain] at hsome
    split_ifs at hsome with hc hlt
    have heq := Option.some.inj hsome
    have ha : (rayMarch powq field u orig dir).1.a = a := congrArg Prod.snd heq
    obtain ⟨hk1, hk2, hk3, hk4⟩ := marchLoop_spec powq field u orig dir
      (tStepOf orig dir) MAX_STEPS (tStartOf orig dir) accumZero
    have hk2' : (rayMarch powq field u orig dir).1 =
        iterFrom powq field u orig dir (tStepOf orig dir) (tStartOf orig dir)
          accumZero (marchLoop powq field u orig dir (tStepOf orig dir)
            MAX_STEPS (tStartOf orig dir) accumZero).2 := hk2
    rw [← ha, hk2']
    exact hinv _ (tStartOf orig dir) accumZero hZ.1 hZ.2

/-- Witness for C7: the zero volume with the default render state gives every
step a zero alpha contribution; the alpha after three iterations is in `[0, 1]`. -/
theorem c7_alpha_invariant_witness :
    0 ≤ (iterFrom (fun q => q) (fun _ => 0) defaultUniforms ⟨0, 0, 0⟩ ⟨1, 1, 1⟩
      (tStepOf ⟨0, 0, 0⟩ ⟨1, 1, 1⟩) (tStartOf ⟨0, 0, 0⟩ ⟨1, 1, 1⟩)
      accumZero 3).a ∧
    (iterFrom (fun q => q) (fun _ => 0) defaultUniforms ⟨0, 0, 0⟩ ⟨1, 1, 1⟩
      (tStepOf ⟨0, 0, 0⟩ ⟨1, 1, 1⟩) (tStartOf ⟨0, 0, 0⟩ ⟨1, 1, 1⟩)
      accumZero 3).a ≤ 1 :=
  (c7_alpha_invariant (fun q => q) (fun _ => 0) defaultUniforms ⟨0, 0, 0⟩
    ⟨1, 1, 1⟩ (fun t => by
      norm_num [stepAlpha, isClipped, defaultUniforms])).2.2.1 3
